import Mathlib

/-!
Verification of the DeepAF autofocus data-preparation module (afutil.py)
against its natural-language specification.

The Python source is shallowly embedded: numpy arrays become Lean lists,
machine floats are modelled by exact rationals, Python dictionaries keyed by
strings become functions String to Option, and external collaborators
(scipy cubic interpolation, numpy FFT, the radialaverage routine from the
imageprocessing module, the DefocusNetwork feature extractor, joblib worker
pools) are modelled as uninterpreted deterministic function parameters.
Definitions follow the source line by line; divergences of the source from
the specification are exhibited on concrete inputs.
-/

namespace DeepAF

set_option maxRecDepth 100000

/-- Structural-fuel floor-log2 helper, so that the definition reduces inside
the kernel (Nat.log2 itself is defined by well-founded recursion). -/
def log2fuel : Nat → Nat → Nat
  | 0, _ => 0
  | fuel + 1, n => if 2 ≤ n then log2fuel fuel (n / 2) + 1 else 0

/-- Floor of log2 over naturals, evaluable by kernel reduction.
Agrees with Nat.log2 (lemma log2F_eq_log2 below). -/
def log2F (n : Nat) : Nat := log2fuel n n

theorem log2fuel_eq_log2 : ∀ fuel n, n ≤ fuel → log2fuel fuel n = Nat.log2 n := by
  intro fuel
  induction fuel with
  | zero =>
    intro n hn
    have h0 : n = 0 := Nat.le_zero.mp hn
    subst h0
    rw [Nat.log2]
    simp [log2fuel]
  | succ f ih =>
    intro n hn
    rw [Nat.log2]
    by_cases h2 : 2 ≤ n
    · have hlt : n / 2 < n := Nat.div_lt_self (by omega) (by omega)
      have : n / 2 ≤ f := by omega
      simp [log2fuel, h2, ih (n / 2) this]
    · simp [log2fuel, h2]

theorem log2F_eq_log2 (n : Nat) : log2F n = Nat.log2 n :=
  log2fuel_eq_log2 n n (Nat.le_refl n)

theorem log2F_eq_log (n : Nat) : log2F n = Nat.log 2 n := by
  rw [log2F_eq_log2, Nat.log2_eq_log_two]

/-!
### Patch Geometry (afutil.get_patch_metadata)

Python source:
  shape = min(image_size)
  patch_size = 2**int(np.log2(shape/split_k))
  patches_per_image = (shape // patch_size) **2
  return patch_size, patches_per_image

"shape/split_k" is Python true division; np.log2 of the quotient is modelled
by the exact real log2 (the float64 rounding of log2 cannot change the
truncated integer part for any realistic image dimension), and int()
truncates toward zero.  For shape >= split_k the exponent is nonnegative and
equals log2F (shape / split_k) with Nat floor division; for shape < split_k
the exponent is negative and truncation toward zero yields
-(floor (log2 (split_k / shape))) = -(log2F (split_k / shape)), so
patch_size is then a non-integral rational (Python returns a float there).
-/

/-- Exponent int(np.log2(shape/split_k)) of the source, over exact
arithmetic: truncation toward zero of log2 (s / k). -/
def patch_size_exp (s k : Nat) : Int :=
  if k ≤ s then (log2F (s / k) : Int) else -(log2F (k / s) : Int)

/-- patch_size of get_patch_metadata as an exact rational (the source value
is a Python int when shape >= split_k and a float otherwise). -/
def patch_sizeQ (w h k : Nat) : ℚ := (2 : ℚ) ^ patch_size_exp (min w h) k

/-- get_patch_metadata in the regime 0 < split_k <= min(width, height), where
patch_size is a positive integer: returns (patch_size, patches_per_image).
Agrees with patch_sizeQ there (lemma patch_sizeQ_eq_nat below). -/
def get_patch_metadata (w h k : Nat) : Nat × Nat :=
  let shape := min w h
  let patch_size := 2 ^ log2F (shape / k)
  (patch_size, (shape / patch_size) ^ 2)

theorem patch_sizeQ_eq_nat (w h k : Nat) (hk : k ≤ min w h) :
    patch_sizeQ w h k = ((get_patch_metadata w h k).1 : ℚ) := by
  simp only [patch_sizeQ, patch_size_exp, get_patch_metadata, if_pos hk]
  push_cast
  rw [zpow_natCast]

/-- The specification formula for patch_size, modelled from the spec words
"patch_size = 2^floor(log2(shape / split_k))": the floor (not truncation)
of the real log2 of the exact quotient.  For shape >= split_k this floor is
log2F (shape / split_k); for shape < split_k it is
-(ceil (log2 (split_k / shape))), and the ceiling log2 of a rational q > 1
equals log2F (ceil q - 1) + 1 with ceil (split_k / shape) computed as
(split_k + shape - 1) / shape. -/
def spec_patch_size (w h k : Nat) : ℚ :=
  let s := min w h
  let ceilq := (k + s - 1) / s
  (2 : ℚ) ^ (if k ≤ s then (log2F (s / k) : Int)
             else -((if ceilq ≤ 1 then 0 else log2F (ceilq - 1) + 1 : Nat) : Int))

/-- C5: the claim asserts the formula with a true floor of log2 for all
width, height, split_k > 0.  At width = height = 3, split_k = 4 the source
truncates int(np.log2(3/4)) = int(-0.415) = 0 and returns patch_size = 1,
while 2^floor(log2(3/4)) = 2^(-1) = 1/2: the claim fails as stated. -/
theorem c5_patch_size_counterexample :
    patch_sizeQ 3 3 4 = 1 ∧ spec_patch_size 3 3 4 = 1 / 2 ∧
    patch_sizeQ 3 3 4 ≠ spec_patch_size 3 3 4 := by
  have h1 : patch_sizeQ 3 3 4 = 1 := by
    norm_num [patch_sizeQ, patch_size_exp, log2F, log2fuel]
  have h2 : spec_patch_size 3 3 4 = 1 / 2 := by
    norm_num [spec_patch_size, log2F, log2fuel]
  exact ⟨h1, h2, by rw [h1, h2]; norm_num⟩

/-- C5 (amended): for all width, height and 0 < split_k <= min(width,height)
(the regime in which the truncation of the source and the floor of the claim
agree), patch_size returned by get_patch_metadata is a power of two, it is
the largest power of two at most min(width,height)/split_k (the meaning of
2^floor(log2(min/split_k))), it satisfies
patch_size * floor(min/patch_size) <= min, and
patches_per_image = floor(min/patch_size)^2.  For split_k > min(width,height)
the source truncates log2 toward zero instead of flooring, and the claimed
formula fails (see the counterexample). -/
theorem c5_patch_geometry_amended (w h k : Nat) (hk : 0 < k) (hks : k ≤ min w h) :
    (∃ e, (get_patch_metadata w h k).1 = 2 ^ e) ∧
    k * (get_patch_metadata w h k).1 ≤ min w h ∧
    min w h < k * (2 * (get_patch_metadata w h k).1) ∧
    (get_patch_metadata w h k).1 * (min w h / (get_patch_metadata w h k).1) ≤ min w h ∧
    (get_patch_metadata w h k).2 = (min w h / (get_patch_metadata w h k).1) ^ 2 := by
  have hq1 : 1 ≤ min w h / k := (Nat.one_le_div_iff hk).mpr hks
  have hlog : log2F (min w h / k) = Nat.log 2 (min w h / k) := log2F_eq_log _
  have hps : (get_patch_metadata w h k).1 = 2 ^ log2F (min w h / k) := rfl
  have hpi : (get_patch_metadata w h k).2 =
      (min w h / (get_patch_metadata w h k).1) ^ 2 := rfl
  refine ⟨⟨log2F (min w h / k), hps⟩, ?_, ?_, ?_, hpi⟩
  · rw [hps]
    have h1 : 2 ^ log2F (min w h / k) ≤ min w h / k := by
      rw [hlog]; exact Nat.pow_log_le_self 2 (by omega)
    calc k * 2 ^ log2F (min w h / k) ≤ k * (min w h / k) :=
          Nat.mul_le_mul_left k h1
      _ ≤ min w h := by rw [Nat.mul_comm]; exact Nat.div_mul_le_self _ _
  · rw [hps]
    have h2 : min w h / k < 2 ^ (log2F (min w h / k) + 1) := by
      rw [hlog]; exact Nat.lt_pow_succ_log_self (by norm_num) _
    have h3 : min w h < 2 ^ (log2F (min w h / k) + 1) * k :=
      (Nat.div_lt_iff_lt_mul hk).mp h2
    calc min w h < 2 ^ (log2F (min w h / k) + 1) * k := h3
      _ = k * (2 * 2 ^ log2F (min w h / k)) := by ring
  · rw [Nat.mul_comm]; exact Nat.div_mul_le_self _ _

/-- Witness for c5_patch_geometry_amended at width = height = 160,
split_k = 2: patch_size = 64, patches_per_image = 4. -/
theorem c5_patch_geometry_amended_witness :
    (0 < 2 ∧ 2 ≤ min 160 160) ∧
    ((∃ e, (get_patch_metadata 160 160 2).1 = 2 ^ e) ∧
     2 * (get_patch_metadata 160 160 2).1 ≤ min 160 160 ∧
     min 160 160 < 2 * (2 * (get_patch_metadata 160 160 2).1) ∧
     (get_patch_metadata 160 160 2).1 *
       (min 160 160 / (get_patch_metadata 160 160 2).1) ≤ min 160 160 ∧
     (get_patch_metadata 160 160 2).2 =
       (min 160 160 / (get_patch_metadata 160 160 2).1) ^ 2) :=
  ⟨⟨by decide, by decide⟩, c5_patch_geometry_amended 160 160 2 (by decide) (by decide)⟩

/-!
### Split utility (afutil.feature_vector_generator_fn)

Python source (lines 149-175):
  n = feature_vectors.shape[0]
  n_full = n / (split_k**2)
  full_indices = np.arange(n_full)
  np.random.shuffle(full_indices)
  num_train = int(len(full_indices) * training_fraction)
  if mode == "trianing":            # note the misspelling in the source
      full_indices = full_indices[:num_train]
  elif (mode == "validation"):
      full_indices = full_indices[num_train:]
  elif (mode == "all"):
      pass
  splits_per_tile = split_k**2
  data_indices = np.concatenate([np.arange(splits_per_tile*index,
      splits_per_tile*(index+1)) for index in full_indices]).astype(np.int32)
  if mode == "training":
      np.random.seed(123)
      np.random.shuffle(data_indices)
  ... yield (feature_vectors[index, :], defocus_dists[index]) for index in data_indices

Modelling notes:
  - n / (split_k**2) is true division and np.arange of a float x has
    ceil(x) entries, hence fvg_num_groups below;
  - the first np.random.shuffle is unseeded: its outcome depends on the
    hidden global generator state, so the shuffled full_indices list is an
    explicit input (theorems quantify over it, constrained to be a
    permutation of range);
  - np.random.shuffle after np.random.seed(123) applies a fixed
    length-dependent permutation of positions: posPerm m lists the positions
    of range m in the order the seeded shuffle reads them, and is a fixed
    parameter shared by all calls;
  - the generator closure yields pairs in data_indices order, modelled as
    the full list of yielded pairs (np.copy of the arrays has no observable
    effect in a pure model).
-/

/-- Length of np.arange(n / split_k^2): ceil of the true-division quotient. -/
def fvg_num_groups (n k : Nat) : Nat := (n + k ^ 2 - 1) / k ^ 2

/-- full_indices after the mode branches.  shuffled is the unseeded-shuffle
outcome of np.arange(n_full); the branch tests the literal strings of the
source, including the misspelled "trianing", and training_fraction is
nonnegative in every use, so int() truncation is floor followed by toNat. -/
def fvg_groups (shuffled : List Nat) (mode : String) (frac : ℚ) : List Nat :=
  let numTrain := (Int.floor ((shuffled.length : ℚ) * frac)).toNat
  if mode = "trianing" then shuffled.take numTrain
  else if mode = "validation" then shuffled.drop numTrain
  else shuffled

/-- data_indices before the seeded shuffle: the np.arange blocks
[k^2 g, k^2 (g+1)) concatenated over the selected groups. -/
def fvg_data_indices (k : Nat) (groups : List Nat) : List Nat :=
  groups.flatMap (fun g => List.range' (k ^ 2 * g) (k ^ 2))

/-- The seeded np.random.shuffle: a fixed permutation of positions per
length, read off posPerm. -/
def seededShuffle (posPerm : Nat → List Nat) (l : List Nat) : List Nat :=
  (posPerm l.length).map (fun i => l.getD i 0)

/-- The full sequence of (feature row, defocus distance) pairs yielded by the
generator returned by feature_vector_generator_fn. -/
def fvg_run (fv : List (List ℚ)) (dd : List ℚ) (mode : String) (k : Nat)
    (frac : ℚ) (shuffled : List Nat) (posPerm : Nat → List Nat) :
    List (List ℚ × ℚ) :=
  let groups := fvg_groups shuffled mode frac
  let di := fvg_data_indices k groups
  let di2 := if mode = "training" then seededShuffle posPerm di else di
  di2.map (fun i => (fv.getD i [], dd.getD i 0))

theorem fvg_data_indices_length (k : Nat) (gs : List Nat) :
    (fvg_data_indices k gs).length = gs.length * k ^ 2 := by
  induction gs with
  | nil => simp [fvg_data_indices]
  | cons g gs ih =>
    simp only [fvg_data_indices, List.flatMap_cons, List.length_append,
      List.length_range', List.length_cons] at *
    rw [ih]; ring

theorem map_getD_range (l : List Nat) :
    (List.range l.length).map (fun i => l.getD i 0) = l := by
  apply List.ext_getElem (by simp)
  intro i h1 h2
  simp only [List.getElem_map, List.getElem_range]
  exact List.getD_eq_getElem l 0 h2

theorem seededShuffle_perm (posPerm : Nat → List Nat)
    (hpp : ∀ m, List.Perm (posPerm m) (List.range m)) (l : List Nat) :
    List.Perm (seededShuffle posPerm l) l := by
  have h := List.Perm.map (fun i => l.getD i 0) (hpp l.length)
  rw [map_getD_range l] at h
  exact h

theorem seededShuffle_length (posPerm : Nat → List Nat)
    (hpp : ∀ m, List.Perm (posPerm m) (List.range m)) (l : List Nat) :
    (seededShuffle posPerm l).length = l.length :=
  (seededShuffle_perm posPerm hpp l).length_eq

theorem floor_forty_times_four_fifths : (Int.floor ((40 : ℚ) * (4 / 5))).toNat = 32 := by
  have h : (40 : ℚ) * (4 / 5) = ((32 : Nat) : ℚ) := by norm_num
  rw [h, Int.floor_natCast]
  rfl

/-- C1: the source branch for trimming to the training fraction tests the
misspelled string "trianing", so the documented mode "training" falls
through unchanged: on 160 samples with split_k = 2 and
training_fraction = 0.8 the training mode selects all 40 groups and yields
160 samples (the claim says 32 groups, 128 samples), validation selects the
complementary 8 groups (32 samples) as claimed, and every validation group
is also a training group, so the group overlap is the full validation set
rather than empty.  This holds for every outcome of the unseeded group
shuffle and every seeded-shuffle permutation. -/
theorem c1_split_typo_bug (shuffled : List Nat) (posPerm : Nat → List Nat)
    (fv : List (List ℚ)) (dd : List ℚ)
    (hsh : List.Perm shuffled (List.range (fvg_num_groups 160 2)))
    (hpp : ∀ m, List.Perm (posPerm m) (List.range m)) :
    fvg_groups shuffled "training" (4 / 5) = shuffled ∧
    (fvg_groups shuffled "training" (4 / 5)).length = 40 ∧
    (fvg_run fv dd "training" 2 (4 / 5) shuffled posPerm).length = 160 ∧
    (fvg_groups shuffled "validation" (4 / 5)).length = 8 ∧
    (fvg_run fv dd "validation" 2 (4 / 5) shuffled posPerm).length = 32 ∧
    (∀ g ∈ fvg_groups shuffled "validation" (4 / 5),
       g ∈ fvg_groups shuffled "training" (4 / 5)) := by
  have hlen : shuffled.length = 40 := by
    have h := hsh.length_eq
    simpa [fvg_num_groups] using h
  have htr : fvg_groups shuffled "training" (4 / 5) = shuffled := by
    have h1 : ("training" = "trianing") = False := by decide
    have h2 : ("training" = "validation") = False := by decide
    simp [fvg_groups, h1, h2]
  have hnt : (Int.floor ((shuffled.length : ℚ) * (4 / 5))).toNat = 32 := by
    rw [hlen]; exact_mod_cast floor_forty_times_four_fifths
  have hva : fvg_groups shuffled "validation" (4 / 5) = shuffled.drop 32 := by
    have h1 : ("validation" = "trianing") = False := by decide
    simp only [fvg_groups, h1, if_false, if_true, eq_self_iff_true, hnt]
  refine ⟨htr, by rw [htr, hlen], ?_, ?_, ?_, ?_⟩
  · have hdl : (fvg_data_indices 2 (fvg_groups shuffled "training" (4 / 5))).length
        = 160 := by
      rw [htr, fvg_data_indices_length, hlen]; norm_num
    simp only [fvg_run, List.length_map, if_true, eq_self_iff_true]
    rw [seededShuffle_length posPerm hpp, hdl]
  · rw [hva, List.length_drop, hlen]
  · have h3 : ("validation" = "training") = False := by decide
    simp only [fvg_run, h3, if_false, List.length_map,
      fvg_data_indices_length, hva, List.length_drop, hlen]
    norm_num
  · intro g hg
    rw [htr]
    rw [hva] at hg
    exact List.mem_of_mem_drop hg

/-- Witness for c1_split_typo_bug: the identity shuffle outcome and the
identity seeded permutation, with empty feature and defocus arrays (the
lengths of the yielded index sequences do not depend on them). -/
theorem c1_split_typo_bug_witness :
    (fvg_run [] [] "training" 2 (4 / 5) (List.range 40)
       (fun m => List.range m)).length = 160 ∧
    (fvg_run [] [] "validation" 2 (4 / 5) (List.range 40)
       (fun m => List.range m)).length = 32 :=
  ⟨(c1_split_typo_bug (List.range 40) (fun m => List.range m) [] []
      (List.Perm.refl _) (fun _ => List.Perm.refl _)).2.2.1,
   (c1_split_typo_bug (List.range 40) (fun m => List.range m) [] []
      (List.Perm.refl _) (fun _ => List.Perm.refl _)).2.2.2.2.1⟩

/-- C4: the claim asserts that for mode "training" the yielded sequence is a
deterministic function of (feature_vectors, defocus_dists, split_k,
training_fraction) alone.  It is not: the group order is set by the
unseeded np.random.shuffle executed before np.random.seed(123), so two
calls observing different global-generator states yield different
sequences.  Refuted with four samples and split_k = 1: the identity and a
transposed outcome of the unseeded shuffle give different sequences for
every fixed seeded permutation (here the identity one). -/
theorem c4_training_determinism_counterexample :
    ¬ (∀ (posPerm : Nat → List Nat),
        (∀ m, List.Perm (posPerm m) (List.range m)) →
        ∀ sh1 sh2 : List Nat,
          List.Perm sh1 (List.range (fvg_num_groups 4 1)) →
          List.Perm sh2 (List.range (fvg_num_groups 4 1)) →
          fvg_run [[0], [1], [2], [3]] [0, 1, 2, 3] "training" 1 (4 / 5) sh1
              posPerm =
            fvg_run [[0], [1], [2], [3]] [0, 1, 2, 3] "training" 1 (4 / 5) sh2
              posPerm) := by
  intro h
  have hne := h (fun m => List.range m) (fun _ => List.Perm.refl _)
    [0, 1, 2, 3] [1, 0, 2, 3] (by decide) (by decide)
  exact absurd hne (by decide)

/-- C4 (amended): for mode "training" the yielded sequence is a permutation
of the same multiset of (feature vector, defocus distance) pairs across any
two calls (all selected samples appear exactly once either way, the seeded
shuffle being a fixed permutation of positions), but its order additionally
depends on the outcome of the unseeded group shuffle, so it is not a
function of the inputs alone; it is deterministic once that unseeded
shuffle outcome is fixed. -/
theorem c4_training_multiset_amended (fv : List (List ℚ)) (dd : List ℚ)
    (k G : Nat) (frac : ℚ) (posPerm : Nat → List Nat) (sh1 sh2 : List Nat)
    (hpp : ∀ m, List.Perm (posPerm m) (List.range m))
    (h1 : List.Perm sh1 (List.range G)) (h2 : List.Perm sh2 (List.range G)) :
    List.Perm (fvg_run fv dd "training" k frac sh1 posPerm)
      (fvg_run fv dd "training" k frac sh2 posPerm) := by
  have hgr : ∀ sh : List Nat, fvg_groups sh "training" frac = sh := by
    intro sh
    have hx : ("training" = "trianing") = False := by decide
    have hy : ("training" = "validation") = False := by decide
    simp [fvg_groups, hx, hy]
  have key : ∀ sh : List Nat, List.Perm sh (List.range G) →
      List.Perm (fvg_run fv dd "training" k frac sh posPerm)
        ((fvg_data_indices k (List.range G)).map
          (fun i => (fv.getD i [], dd.getD i 0))) := by
    intro sh hsh
    have hdi : List.Perm (fvg_data_indices k sh)
        (fvg_data_indices k (List.range G)) :=
      List.Perm.flatMap_right _ hsh
    have hperm : List.Perm
        (seededShuffle posPerm (fvg_data_indices k (fvg_groups sh "training" frac)))
        (fvg_data_indices k (List.range G)) := by
      rw [hgr sh]
      exact (seededShuffle_perm posPerm hpp _).trans hdi
    simp only [fvg_run, if_true, eq_self_iff_true]
    exact List.Perm.map _ hperm
  exact (key sh1 h1).trans (key sh2 h2).symm

/-- Witness for c4_training_multiset_amended: two group-shuffle outcomes on
two groups of one sample each. -/
theorem c4_training_multiset_amended_witness :
    List.Perm (fvg_run [[0], [1]] [5, 6] "training" 1 1 [1, 0]
        (fun m => List.range m))
      (fvg_run [[0], [1]] [5, 6] "training" 1 1 [0, 1]
        (fun m => List.range m)) :=
  c4_training_multiset_amended [[0], [1]] [5, 6] 1 2 1 (fun m => List.range m)
    [1, 0] [0, 1] (fun _ => List.Perm.refl _) (by decide) (by decide)

/-!
### Focal plane computation (afutil.calc_focal_plane and its inner helpers)

np.argmax over the densely resampled interpolant is embedded as a left fold
keeping the first index attaining the running maximum (numpy returns the
first occurrence of the maximum).
-/

/-- Fold step for np.argmax: best (index, value) so far, replaced only on a
strictly larger value. -/
def amAux : List ℚ → Nat → (Nat × ℚ) → (Nat × ℚ)
  | [], _, b => b
  | v :: rest, i, b =>
    if b.2 < v then amAux rest (i + 1) (i, v) else amAux rest (i + 1) b

/-- np.argmax of a list of rationals (0 on the empty list, which numpy
rejects; every use below is on a nonempty list). -/
def argmax (l : List ℚ) : Nat :=
  match l with
  | [] => 0
  | v :: rest => (amAux rest 1 (0, v)).1

theorem amAux_max : ∀ (rest : List ℚ) (i : Nat) (b : Nat × ℚ),
    b.2 ≤ (amAux rest i b).2 ∧ ∀ x ∈ rest, x ≤ (amAux rest i b).2 := by
  intro rest
  induction rest with
  | nil => intro i b; exact ⟨le_refl _, by simp⟩
  | cons v rest ih =>
    intro i b
    by_cases hb : b.2 < v
    · have heq : amAux (v :: rest) i b = amAux rest (i + 1) (i, v) := by
        simp [amAux, hb]
      rw [heq]
      have h := ih (i + 1) (i, v)
      refine ⟨le_trans (le_of_lt hb) h.1, ?_⟩
      intro x hx
      rcases List.mem_cons.mp hx with h1 | h2
      · exact h1 ▸ h.1
      · exact h.2 x h2
    · have heq : amAux (v :: rest) i b = amAux rest (i + 1) b := by
        simp [amAux, hb]
      rw [heq]
      have h := ih (i + 1) b
      refine ⟨h.1, ?_⟩
      intro x hx
      rcases List.mem_cons.mp hx with h1 | h2
      · exact h1 ▸ le_trans (le_of_not_lt hb) h.1
      · exact h.2 x h2

theorem amAux_valid : ∀ (rest : List ℚ) (i : Nat) (b : Nat × ℚ) (L : List ℚ),
    b.1 < L.length → L.getD b.1 0 = b.2 → rest = L.drop i →
    (amAux rest i b).1 < L.length ∧
      L.getD (amAux rest i b).1 0 = (amAux rest i b).2 := by
  intro rest
  induction rest with
  | nil => intro i b L hb1 hb2 _; exact ⟨hb1, hb2⟩
  | cons v rest ih =>
    intro i b L hb1 hb2 hdrop
    have hilt : i < L.length := by
      have := congrArg List.length hdrop
      simp only [List.length_cons, List.length_drop] at this
      omega
    have hlen0 : 0 < (List.drop i L).length := by
      simp only [List.length_drop]
      omega
    have hv : L.getD i 0 = v := by
      have h0 : (List.drop i L).getD 0 0 = v := by rw [← hdrop]; rfl
      rw [List.getD_eq_getElem _ _ hlen0] at h0
      rw [List.getD_eq_getElem _ _ hilt, ← h0]
      simp [List.getElem_drop]
    have hrest : rest = L.drop (i + 1) := by
      have := congrArg (List.drop 1) hdrop
      simpa [List.drop_drop, Nat.add_comm] using this
    by_cases hb : b.2 < v
    · have h := ih (i + 1) (i, v) L hilt hv hrest
      simpa [amAux, hb] using h
    · have h := ih (i + 1) b L hb1 hb2 hrest
      simpa [amAux, hb] using h

theorem argmax_lt_length (l : List ℚ) (h : l ≠ []) : argmax l < l.length := by
  match l with
  | v :: rest =>
    have hv := amAux_valid rest 1 (0, v) (v :: rest) (by simp) rfl rfl
    exact hv.1

theorem le_getD_argmax (l : List ℚ) : ∀ x ∈ l, x ≤ l.getD (argmax l) 0 := by
  match l with
  | [] => intro x hx; cases hx
  | v :: rest =>
    intro x hx
    have hv := amAux_valid rest 1 (0, v) (v :: rest) (by simp) rfl rfl
    have hm := amAux_max rest 1 (0, v)
    have hx2 : x ≤ (amAux rest 1 (0, v)).2 := by
      rcases List.mem_cons.mp hx with h1 | h2
      · exact h1 ▸ hm.1
      · exact hm.2 x h2
    calc x ≤ (amAux rest 1 (0, v)).2 := hx2
      _ = (v :: rest).getD (argmax (v :: rest)) 0 := hv.2.symm

/-- np.linspace(0, n - 1, 10000): the 10000 sample points i*(n-1)/9999. -/
def linspace10000 (n : Nat) : List ℚ :=
  (List.range 10000).map (fun i : Nat => (i : ℚ) * ((n : ℚ) - 1) / 9999)

/-- Per-slice sharpness scores of compute_focal_plane:
np.sum(powerspectra_arr[:, powerspectra_arr.shape[1] // 4:], axis=1).
The number of columns shape[1] is the common row length, read off the first
row as numpy does when stacking equal-length rows. -/
def ps_scores (profiles : List (List ℚ)) : List ℚ :=
  profiles.map (fun p => (p.drop ((profiles.headD []).length / 4)).sum)

/-- compute_focal_plane: cubic interpolation is the scipy routine
interpolate.interp1d(np.arange(n), pssum, kind=cubic), an external
collaborator modelled as the uninterpreted function interp from the score
list and a query point to a value; the sample of the interpolant at the
first-argmax linspace point is scaled by the z step. -/
def compute_focal_plane (profiles : List (List ℚ)) (z_um : ℚ)
    (interp : List ℚ → ℚ → ℚ) : ℚ :=
  (linspace10000 (ps_scores profiles).length).getD
    (argmax ((linspace10000 (ps_scores profiles).length).map
      (interp (ps_scores profiles)))) 0 * z_um

theorem linspace10000_length (n : Nat) : (linspace10000 n).length = 10000 := by
  unfold linspace10000
  rw [List.length_map, List.length_range]

theorem linspace10000_getElem (n j : Nat) (hj : j < (linspace10000 n).length) :
    (linspace10000 n)[j] = (j : ℚ) * ((n : ℚ) - 1) / 9999 := by
  unfold linspace10000
  rw [List.getElem_map, List.getElem_range]

theorem linspace10000_getD (n j : Nat) (hj : j < 10000) :
    (linspace10000 n).getD j 0 = (j : ℚ) * ((n : ℚ) - 1) / 9999 := by
  rw [List.getD_eq_getElem _ _ (by rw [linspace10000_length]; omega)]
  exact linspace10000_getElem n j (by rw [linspace10000_length]; omega)

/-- C7: for at least 4 profiles of common length B, compute_focal_plane
scores each slice by the sum of profile entries from column floor(B/4) on,
samples the (cubic) interpolant of those scores at the 10000 points
j*(n-1)/9999 of np.linspace(0, n-1, 10000), and returns a maximizing sample
position times z_step_um: there is a sample index j < 10000 whose
interpolated value is at least every other sample value and the result is
exactly (j*(n-1)/9999) * z_step_um.  The interpolant itself is the external
scipy collaborator, quantified over. -/
theorem c7_focal_plane_solver (profiles : List (List ℚ)) (z_um : ℚ)
    (interp : List ℚ → ℚ → ℚ) (B : Nat)
    (h4 : 4 ≤ profiles.length)
    (hB : ∀ p ∈ profiles, p.length = B) :
    ∃ j : Nat, j < 10000 ∧
      compute_focal_plane profiles z_um interp =
        ((j : ℚ) * ((profiles.length : ℚ) - 1) / 9999) * z_um ∧
      ∀ i : Nat, i < 10000 →
        interp (profiles.map (fun p => (p.drop (B / 4)).sum))
            ((i : ℚ) * ((profiles.length : ℚ) - 1) / 9999) ≤
          interp (profiles.map (fun p => (p.drop (B / 4)).sum))
            ((j : ℚ) * ((profiles.length : ℚ) - 1) / 9999) := by
  have hhead : (profiles.headD []).length = B := by
    cases profiles with
    | nil => simp at h4
    | cons p rest => exact hB p (List.mem_cons_self p rest)
  have hscores : ps_scores profiles =
      profiles.map (fun p => (p.drop (B / 4)).sum) := by
    rw [ps_scores, hhead]
  have hslen : (ps_scores profiles).length = profiles.length := by
    simp only [ps_scores, List.length_map]
  have hcfp : compute_focal_plane profiles z_um interp =
      (linspace10000 profiles.length).getD
        (argmax ((linspace10000 profiles.length).map
          (interp (profiles.map (fun p => (p.drop (B / 4)).sum))))) 0 * z_um := by
    rw [compute_focal_plane, hslen, hscores]
  have hyylen : ((linspace10000 profiles.length).map
      (interp (profiles.map (fun p => (p.drop (B / 4)).sum)))).length = 10000 := by
    simp only [List.length_map, linspace10000_length]
  have hyne : (linspace10000 profiles.length).map
      (interp (profiles.map (fun p => (p.drop (B / 4)).sum))) ≠ [] :=
    List.ne_nil_of_length_pos (by omega)
  have hj : argmax ((linspace10000 profiles.length).map
      (interp (profiles.map (fun p => (p.drop (B / 4)).sum)))) < 10000 := by
    have := argmax_lt_length _ hyne
    omega
  refine ⟨_, hj, ?_, ?_⟩
  · rw [hcfp, linspace10000_getD _ _ hj]
  · intro i hi
    have hval : ∀ m : Nat, m < 10000 →
        ((linspace10000 profiles.length).map
          (interp (profiles.map (fun p => (p.drop (B / 4)).sum)))).getD m 0 =
        interp (profiles.map (fun p => (p.drop (B / 4)).sum))
          ((m : ℚ) * ((profiles.length : ℚ) - 1) / 9999) := by
      intro m hm
      rw [List.getD_eq_getElem _ _ (by omega)]
      rw [List.getElem_map]
      rw [linspace10000_getElem _ _ (by rw [linspace10000_length]; omega)]
    have hmem : ((linspace10000 profiles.length).map
        (interp (profiles.map (fun p => (p.drop (B / 4)).sum)))).getD i 0 ∈
        (linspace10000 profiles.length).map
          (interp (profiles.map (fun p => (p.drop (B / 4)).sum))) := by
      rw [List.getD_eq_getElem _ _ (by omega)]
      exact List.getElem_mem _
    have hle := le_getD_argmax _ _ hmem
    rw [hval i hi, hval _ hj] at hle
    exact hle

/-- Witness for c7_focal_plane_solver: four constant one-bin profiles, a
constant interpolant, unit z step. -/
theorem c7_focal_plane_solver_witness :
    ∃ j : Nat, j < 10000 ∧
      compute_focal_plane [[1], [1], [1], [1]] 1 (fun _ _ => 0) =
        ((j : ℚ) * ((([[1], [1], [1], [1]] : List (List ℚ)).length : ℚ) - 1)
          / 9999) * 1 ∧
      ∀ i : Nat, i < 10000 →
        (fun _ _ => (0 : ℚ))
            (([[1], [1], [1], [1]] : List (List ℚ)).map
              (fun p => (p.drop (1 / 4)).sum))
            ((i : ℚ) * ((([[1], [1], [1], [1]] : List (List ℚ)).length : ℚ) - 1)
              / 9999) ≤
          (fun _ _ => (0 : ℚ))
            (([[1], [1], [1], [1]] : List (List ℚ)).map
              (fun p => (p.drop (1 / 4)).sum))
            ((j : ℚ) * ((([[1], [1], [1], [1]] : List (List ℚ)).length : ℚ) - 1)
              / 9999) :=
  c7_focal_plane_solver [[1], [1], [1], [1]] 1 (fun _ _ => 0) 1 (by decide)
    (by intro p hp; fin_cases hp <;> rfl)

/-!
### Data model and the focal-plane pipeline (afutil.calc_focal_plane)

A DataWrapper exposes image geometry, the number of XY positions, the
number of z slices per position, the physical z step, the ground-truth
image reader (read_ground_truth_image(z_index, position_index)) and the
prediction patch reader (read_prediction_image(position_index, z_index,
patch_index, split_k)).  Images are total functions from (row, column) to
intensity; crops materialize the accessed window as a list of rows, as a
numpy slice does.
-/

structure DataWrapper where
  width : Nat
  height : Nat
  numPositions : Nat
  numZ : Nat → Nat
  zUm : ℚ
  readGT : Nat → Nat → Nat → Nat → ℚ
  readPred : Nat → Nat → Nat → Nat → Nat → Nat → ℚ

instance : Inhabited DataWrapper :=
  ⟨⟨0, 0, 0, fun _ => 0, 0, fun _ _ _ _ => 0, fun _ _ _ _ _ _ => 0⟩⟩

/-- afutil.crop: the (index // split_k, index % split_k) tile of side
patch_size, materialized row-major.  The closure variable patch_size is an
explicit first argument. -/
def crop (patch_size : Nat) (img : Nat → Nat → ℚ) (index k : Nat) :
    List (List ℚ) :=
  (List.range patch_size).map (fun y =>
    (List.range patch_size).map (fun x =>
      img ((index / k) * patch_size + y) ((index % k) * patch_size + x)))

/-!
joblib worker-pool model: the pool runs one pure task per slice; tasks
complete in an arbitrary order sched (a permutation of the task indices)
and each completion is tagged with its task index; joblib hands back the
results reassembled in task order, here by looking every task index up in
the tagged completion list.  parMap_perm_eq proves the collection equals
the sequential list map for every completion order, which is exactly the
claimed zero-observable-effect of parallelism for pure tasks.
-/

/-- Tagged results in completion order. -/
def taskResults {α β : Type} (sched : List Nat) (f : α → β) (xs : List α) :
    List (Nat × β) :=
  sched.filterMap (fun i => (xs[i]?).map (fun x => (i, f x)))

/-- Reassembly in task order (the default on a missing tag is never hit
when sched covers the task indices). -/
def parMap {α β : Type} [Inhabited β] (sched : List Nat) (f : α → β)
    (xs : List α) : List β :=
  (List.range xs.length).map (fun j =>
    ((taskResults sched f xs).lookup j).getD default)

theorem lookup_taskResults {α β : Type} (f : α → β) (xs : List α) :
    ∀ (sched : List Nat) (j : Nat) (hj : j < xs.length), j ∈ sched →
      (taskResults sched f xs).lookup j = some (f xs[j]) := by
  intro sched
  induction sched with
  | nil => intro j hj hmem; cases hmem
  | cons i rest ih =>
    intro j hj hmem
    by_cases hij : j = i
    · subst hij
      have hsome : xs[j]? = some xs[j] := List.getElem?_eq_getElem hj
      simp [taskResults, List.filterMap_cons, hsome, List.lookup]
    · have hjr : j ∈ rest := by
        rcases List.mem_cons.mp hmem with h | h
        · exact absurd h hij
        · exact h
      cases hxi : xs[i]? with
      | none =>
        have hred : taskResults (i :: rest) f xs = taskResults rest f xs := by
          simp [taskResults, List.filterMap_cons, hxi]
        rw [hred]
        exact ih j hj hjr
      | some x =>
        have hbeq : (j == i) = false := by
          simp [hij]
        have hred : taskResults (i :: rest) f xs =
            (i, f x) :: taskResults rest f xs := by
          simp [taskResults, List.filterMap_cons, hxi]
        rw [hred, List.lookup_cons, hbeq]
        exact ih j hj hjr

theorem parMap_perm_eq {α β : Type} [Inhabited β] (sched : List Nat)
    (f : α → β) (xs : List α)
    (hs : List.Perm sched (List.range xs.length)) :
    parMap sched f xs = xs.map f := by
  apply List.ext_getElem
  · rw [parMap, List.length_map, List.length_range, List.length_map]
  · intro j h1 h2
    have hj : j < xs.length := by simpa using h2
    have hmem : j ∈ sched := hs.mem_iff.mpr (List.mem_range.mpr hj)
    have hlk := lookup_taskResults f xs sched j hj hmem
    simp only [parMap, List.getElem_map, List.getElem_range, hlk,
      Option.getD_some]

/-- afutil.calc_focal_plane: load the z stack at the position, compute the
radially averaged log power spectrum of the top-left patch-size crop of
every slice (sequentially, or through the worker pool when one is
supplied), then run compute_focal_plane and replicate the single focal
plane over all split_k^2 crop indices.  The composition
radialaverage(log |fftshift(fft2 patch)|^2) is deterministic in the cropped
patch and external to this module, modelled by the uninterpreted parameter
spectrum; plotting (show_output) has no effect on the return value and is
omitted. -/
def calc_focal_plane (dw : DataWrapper) (pos k : Nat)
    (parallel : Option (List Nat)) (spectrum : List (List ℚ) → List ℚ)
    (interp : List ℚ → ℚ → ℚ) : List (Nat × ℚ) :=
  let patch_size := (get_patch_metadata dw.width dw.height k).1
  let images := (List.range (dw.numZ pos)).map (fun z => dw.readGT z pos)
  let radial := fun img => spectrum (crop patch_size img 0 1)
  let powerspectra :=
    match parallel with
    | none => images.map radial
    | some sched => parMap sched radial images
  let fp := compute_focal_plane powerspectra dw.zUm interp
  (List.range (k ^ 2)).map (fun i => (i, fp))

theorem calc_focal_plane_parallel_eq (dw : DataWrapper) (pos k : Nat)
    (sched : List Nat) (spectrum : List (List ℚ) → List ℚ)
    (interp : List ℚ → ℚ → ℚ)
    (hsched : List.Perm sched (List.range (dw.numZ pos))) :
    calc_focal_plane dw pos k (some sched) spectrum interp =
      calc_focal_plane dw pos k none spectrum interp := by
  have hlen : ((List.range (dw.numZ pos)).map
      (fun z => dw.readGT z pos)).length = dw.numZ pos := by
    rw [List.length_map, List.length_range]
  have hp := parMap_perm_eq sched
    (fun img => spectrum (crop (get_patch_metadata dw.width dw.height k).1
      img 0 1))
    ((List.range (dw.numZ pos)).map (fun z => dw.readGT z pos))
    (by rw [hlen]; exact hsched)
  simp only [calc_focal_plane]
  rw [hp]

/-- Storage write: a named scalar, overwriting any previous value. -/
def setStore (st : String → Option ℚ) (key : String) (v : ℚ) :
    String → Option ℚ :=
  fun s => if s = key then some v else st s

/-- The per-position persistence key: "pos" then the index then "_focal_plane". -/
def focal_plane_key (pos : Nat) : String :=
  "pos" ++ toString pos ++ "_focal_plane"

/-- read_or_compute inside afutil.read_or_calc_focal_planes: on a cache
miss compute the focal planes and store focal_plane[crop_index] under the
single position key for every crop index (successive writes of the same
value overwrite each other); on a hit rebuild the dictionary from the
stored scalar.  Returns the dictionary and the updated store. -/
def read_or_compute (dw : DataWrapper) (st : String → Option ℚ)
    (pos k : Nat) (parallel : Option (List Nat))
    (spectrum : List (List ℚ) → List ℚ) (interp : List ℚ → ℚ → ℚ) :
    List (Nat × ℚ) × (String → Option ℚ) :=
  match st (focal_plane_key pos) with
  | none =>
      let fp := calc_focal_plane dw pos k parallel spectrum interp
      (fp, fp.foldl (fun s c => setStore s (focal_plane_key pos) c.2) st)
  | some v => ((List.range (k ^ 2)).map (fun i => (i, v)), st)

theorem read_or_compute_parallel_eq (dw : DataWrapper)
    (st : String → Option ℚ) (pos k : Nat) (sched : List Nat)
    (spectrum : List (List ℚ) → List ℚ) (interp : List ℚ → ℚ → ℚ)
    (hsched : List.Perm sched (List.range (dw.numZ pos))) :
    read_or_compute dw st pos k (some sched) spectrum interp =
      read_or_compute dw st pos k none spectrum interp := by
  cases hst : st (focal_plane_key pos) with
  | none =>
    simp only [read_or_compute, hst,
      calc_focal_plane_parallel_eq dw pos k sched spectrum interp hsched]
  | some v =>
    simp only [read_or_compute, hst]

/-- afutil.read_or_calc_focal_planes: iterate read_or_compute over every
position (the dict comprehension is sequential in both branches; only the
slice-level spectra use the pool), threading the store.  poolAt pos = none models
n_cores = 1; poolAt pos = some sched models the joblib pool, with sched the
completion order of the slice tasks at position pos. -/
def read_or_calc_focal_planes (dw : DataWrapper) (st : String → Option ℚ)
    (k : Nat) (poolAt : Nat → Option (List Nat))
    (spectrum : List (List ℚ) → List ℚ) (interp : List ℚ → ℚ → ℚ) :
    List (Nat × List (Nat × ℚ)) × (String → Option ℚ) :=
  (List.range dw.numPositions).foldl
    (fun a pos =>
      let r := read_or_compute dw a.2 pos k (poolAt pos) spectrum interp
      (a.1 ++ [(pos, r.1)], r.2))
    ([], st)

/-- C8: with every slice task pure, the worker-pool path of the focal-plane
computation equals the sequential path, for every completion order of the
pool tasks: the computed dictionary, the per-position cache behaviour and
the final persisted store coincide.  The tagged-reassembly model of joblib
(parMap) is what makes the profiles arrive in original slice order. -/
theorem c8_parallel_equivalence (dw : DataWrapper) (pos k : Nat)
    (sched : List Nat) (pool : Nat → List Nat) (st : String → Option ℚ)
    (spectrum : List (List ℚ) → List ℚ) (interp : List ℚ → ℚ → ℚ)
    (hsched : List.Perm sched (List.range (dw.numZ pos)))
    (hpool : ∀ p, List.Perm (pool p) (List.range (dw.numZ p))) :
    calc_focal_plane dw pos k (some sched) spectrum interp =
      calc_focal_plane dw pos k none spectrum interp ∧
    read_or_compute dw st pos k (some sched) spectrum interp =
      read_or_compute dw st pos k none spectrum interp ∧
    read_or_calc_focal_planes dw st k (fun p => some (pool p)) spectrum
        interp =
      read_or_calc_focal_planes dw st k (fun _ => none) spectrum interp := by
  refine ⟨calc_focal_plane_parallel_eq dw pos k sched spectrum interp hsched,
    read_or_compute_parallel_eq dw st pos k sched spectrum interp hsched, ?_⟩
  simp only [read_or_calc_focal_planes]
  apply List.foldl_ext
  intro a p hp
  dsimp only
  rw [read_or_compute_parallel_eq dw a.2 p k (pool p) spectrum interp
    (hpool p)]

/-- A small concrete dataset: one position, two z slices of a 2x2 sensor. -/
def dwDemo : DataWrapper where
  width := 2
  height := 2
  numPositions := 1
  numZ := fun _ => 2
  zUm := 1
  readGT := fun z _ y x => (z : ℚ) + (y : ℚ) + (x : ℚ)
  readPred := fun _ _ _ _ _ _ => 0

/-- Witness for c8_parallel_equivalence: two slices executed by the pool in
reversed completion order [1, 0]. -/
theorem c8_parallel_equivalence_witness :
    calc_focal_plane dwDemo 0 1 (some [1, 0]) (fun _ => [0, 0, 0, 0])
        (fun _ q => q) =
      calc_focal_plane dwDemo 0 1 none (fun _ => [0, 0, 0, 0])
        (fun _ q => q) ∧
    read_or_compute dwDemo (fun _ => none) 0 1 (some [1, 0])
        (fun _ => [0, 0, 0, 0]) (fun _ q => q) =
      read_or_compute dwDemo (fun _ => none) 0 1 none
        (fun _ => [0, 0, 0, 0]) (fun _ q => q) ∧
    read_or_calc_focal_planes dwDemo (fun _ => none) 1
        (fun p => some ((fun _ : Nat => [1, 0]) p)) (fun _ => [0, 0, 0, 0])
        (fun _ q => q) =
      read_or_calc_focal_planes dwDemo (fun _ => none) 1 (fun _ => none)
        (fun _ => [0, 0, 0, 0]) (fun _ q => q) :=
  c8_parallel_equivalence dwDemo 0 1 [1, 0] (fun _ => [1, 0]) (fun _ => none)
    (fun _ => [0, 0, 0, 0]) (fun _ q => q) (by decide)
    (fun _ => by show List.Perm [1, 0] (List.range 2); decide)

/-- C10: the focal plane computed by calc_focal_plane reads each slice only
through crop(image, 0, 1), the top-left patch_size-square window (with
patch_size from get_patch_metadata at the supplied split factor): two
datasets of the same geometry whose ground-truth slices agree on that
window at the given position yield identical focal-plane dictionaries,
whatever the pixels outside the window.  Quantified over the external
spectrum and interpolation collaborators; the split factor is restricted to
the regime 0 < split_k <= min(width, height) in which patch_size is the
integer the source computes. -/
theorem c10_crop_locality (dw1 dw2 : DataWrapper) (pos k : Nat)
    (spectrum : List (List ℚ) → List ℚ) (interp : List ℚ → ℚ → ℚ)
    (_hk : 0 < k) (_hkm : k ≤ min dw1.width dw1.height)
    (hw : dw1.width = dw2.width) (hh : dw1.height = dw2.height)
    (hz : dw1.zUm = dw2.zUm) (hn : dw1.numZ pos = dw2.numZ pos)
    (hagree : ∀ z, z < dw1.numZ pos → ∀ y x : Nat,
      y < (get_patch_metadata dw1.width dw1.height k).1 →
      x < (get_patch_metadata dw1.width dw1.height k).1 →
      dw1.readGT z pos y x = dw2.readGT z pos y x) :
    calc_focal_plane dw1 pos k none spectrum interp =
      calc_focal_plane dw2 pos k none spectrum interp := by
  have hps : (get_patch_metadata dw2.width dw2.height k).1 =
      (get_patch_metadata dw1.width dw1.height k).1 := by
    rw [hw, hh]
  have hspec : ((List.range (dw1.numZ pos)).map (fun z => dw1.readGT z pos)).map
      (fun img =>
        spectrum (crop (get_patch_metadata dw1.width dw1.height k).1 img 0 1)) =
      ((List.range (dw2.numZ pos)).map (fun z => dw2.readGT z pos)).map
      (fun img =>
        spectrum (crop (get_patch_metadata dw2.width dw2.height k).1 img 0 1)) := by
    rw [hps, ← hn, List.map_map, List.map_map]
    apply List.map_congr_left
    intro z hzmem
    have hz2 : z < dw1.numZ pos := List.mem_range.mp hzmem
    show spectrum (crop (get_patch_metadata dw1.width dw1.height k).1
        (dw1.readGT z pos) 0 1) =
      spectrum (crop (get_patch_metadata dw1.width dw1.height k).1
        (dw2.readGT z pos) 0 1)
    congr 1
    unfold crop
    apply List.map_congr_left
    intro y hy
    apply List.map_congr_left
    intro x hx
    have hy2 : y < (get_patch_metadata dw1.width dw1.height k).1 :=
      List.mem_range.mp hy
    have hx2 : x < (get_patch_metadata dw1.width dw1.height k).1 :=
      List.mem_range.mp hx
    simp only [Nat.zero_div, Nat.zero_mod, Nat.zero_mul, Nat.zero_add]
    exact hagree z hz2 y x hy2 hx2
  simp only [calc_focal_plane]
  rw [hspec, hz]

/-- One z slice of a 3x3 sensor, all zeros. -/
def dwLoc1 : DataWrapper where
  width := 3
  height := 3
  numPositions := 1
  numZ := fun _ => 1
  zUm := 1
  readGT := fun _ _ _ _ => 0
  readPred := fun _ _ _ _ _ _ => 0

/-- Same geometry, same top-left 2x2 window (patch_size of a 3x3 image at
split 1 is 2), different pixels outside it. -/
def dwLoc2 : DataWrapper where
  width := 3
  height := 3
  numPositions := 1
  numZ := fun _ => 1
  zUm := 1
  readGT := fun _ _ y x => if y ≤ 1 ∧ x ≤ 1 then 0 else 7
  readPred := fun _ _ _ _ _ _ => 0

/-- Witness for c10_crop_locality: dwLoc1 and dwLoc2 differ only outside
the top-left 2x2 window. -/
theorem c10_crop_locality_witness :
    calc_focal_plane dwLoc1 0 1 none (fun _ => [0, 0, 0, 0]) (fun _ _ => 0) =
      calc_focal_plane dwLoc2 0 1 none (fun _ => [0, 0, 0, 0])
        (fun _ _ => 0) :=
  c10_crop_locality dwLoc1 dwLoc2 0 1 (fun _ => [0, 0, 0, 0]) (fun _ _ => 0)
    (by decide) (by decide) rfl rfl rfl rfl
    (by
      intro z hz y x hy hx
      have hps : (get_patch_metadata dwLoc1.width dwLoc1.height 1).1 = 2 := by
        decide
      rw [hps] at hy hx
      show (0 : ℚ) = if y ≤ 1 ∧ x ≤ 1 then (0 : ℚ) else 7
      rw [if_pos ⟨by omega, by omega⟩])

/-!
### Training pair generator (afutil.generator_fn)

The loop over zip(data_wrapper_list, position_indices_list) re-initialises
the accumulator dataset_slice_pos_tuples at the top of each iteration, so
after the loop only the tuples of the LAST dataset survive; the foldl below
discards its accumulator to mirror the slip exactly.  (With an empty
dataset list the Python name is unbound and the source raises NameError;
the model returns the empty list.)  A tuple is (data_wrapper, z_index,
pos_index); z_index 0 is skipped when ignore_first_slice is set.
-/

def generator_tuples (dws : List DataWrapper) (posLists : List (List Nat))
    (ignoreFirst : Bool) : List (DataWrapper × Nat × Nat) :=
  (List.zip dws posLists).foldl
    (fun _ dwp =>
      dwp.2.flatMap (fun pos =>
        (List.range (dwp.1.numZ pos)).filterMap (fun z =>
          if z = 0 ∧ ignoreFirst then none
          else some (dwp.1, z, pos))))
    []

/-- The full pair sequence yielded by one run of the generator built by
inner_generator: for each tuple index and each patch_index below
patches_per_image (geometry read off the first tuple dataset,
dataset_slice_pos_tuples[0][0], as in the source), the prediction patch and
focal_planes[data_wrapper][pos_index][patch_index] minus z step times
z_index.  focal models the nested Python dict as a total function. -/
def inner_generator (tuples : List (DataWrapper × Nat × Nat)) (tile_k : Nat)
    (focal : DataWrapper → Nat → Nat → ℚ) (indices : List Nat) :
    List ((Nat → Nat → ℚ) × ℚ) :=
  let d0 := (tuples.headD default).1
  let ppi := (get_patch_metadata d0.width d0.height tile_k).2
  indices.flatMap (fun index =>
    ((tuples[index]?).map (fun t =>
      (List.range ppi).map (fun patch_index =>
        (t.1.readPred t.2.2 t.2.1 tile_k patch_index,
         focal t.1 t.2.2 patch_index - t.1.zUm * (t.2.1 : ℚ))))).getD [])

/-- generator_fn: returns the generator factory; each invocation of the
returned closure runs inner_generator afresh over
indices = np.arange(len(dataset_slice_pos_tuples)). -/
def generator_fn (dws : List DataWrapper) (posLists : List (List Nat))
    (tile_k : Nat) (focal : DataWrapper → Nat → Nat → ℚ)
    (ignoreFirst : Bool) : Unit → List ((Nat → Nat → ℚ) × ℚ) :=
  fun _ =>
    inner_generator (generator_tuples dws posLists ignoreFirst) tile_k focal
      (List.range (generator_tuples dws posLists ignoreFirst).length)

theorem flatMap_range_getElem {γ δ : Type} (l : List γ) (F : γ → List δ) :
    (List.range l.length).flatMap (fun i => ((l[i]?).map F).getD []) =
      l.flatMap F := by
  induction l with
  | nil => simp
  | cons a l ih =>
    rw [List.length_cons, List.range_succ_eq_map, List.flatMap_cons,
      List.flatMap_map, List.flatMap_cons]
    have h0 : (((a :: l)[(0 : Nat)]?).map F).getD [] = F a := by
      rw [List.getElem?_cons_zero]
      rfl
    have hsucc : (fun i => (((a :: l)[Nat.succ i]?).map F).getD []) =
        (fun i => ((l[i]?).map F).getD []) := by
      funext i
      rw [List.getElem?_cons_succ]
    rw [h0, hsucc, ih]

theorem length_flatMap_const {γ δ : Type} (l : List γ) (F : γ → List δ)
    (c : Nat) (h : ∀ t ∈ l, (F t).length = c) :
    (l.flatMap F).length = l.length * c := by
  induction l with
  | nil => simp
  | cons a l ih =>
    rw [List.flatMap_cons, List.length_append, List.length_cons,
      h a (List.mem_cons_self a l),
      ih (fun t ht => h t (List.mem_cons_of_mem a ht))]
    ring

/-- C9: the factory returned by generator_fn is re-entrant: all state it
captures (the tuple list, its index range, the focal-plane map) is
unchanged by consumption, so two invocations each yield the same full
sequence, and that sequence is exactly the tuple-then-patch enumeration
with defocus = focal_plane - z_step * z_index, of length
number of tuples * patches_per_image.  The split factor is restricted to
0 < tile_k <= min(width, height) of the first tuple dataset, where the
integer patch geometry is the one the source computes. -/
theorem c9_generator_restartable (dws : List DataWrapper)
    (posLists : List (List Nat)) (tile_k : Nat)
    (focal : DataWrapper → Nat → Nat → ℚ) (ignoreFirst : Bool)
    (_hk : 0 < tile_k)
    (_hkm : tile_k ≤
      min ((generator_tuples dws posLists ignoreFirst).headD default).1.width
        ((generator_tuples dws posLists ignoreFirst).headD default).1.height) :
    generator_fn dws posLists tile_k focal ignoreFirst () =
      generator_fn dws posLists tile_k focal ignoreFirst () ∧
    generator_fn dws posLists tile_k focal ignoreFirst () =
      (generator_tuples dws posLists ignoreFirst).flatMap (fun t =>
        (List.range ((get_patch_metadata
            ((generator_tuples dws posLists ignoreFirst).headD default).1.width
            ((generator_tuples dws posLists ignoreFirst).headD default).1.height
            tile_k).2)).map (fun patch_index =>
          (t.1.readPred t.2.2 t.2.1 tile_k patch_index,
           focal t.1 t.2.2 patch_index - t.1.zUm * (t.2.1 : ℚ)))) ∧
    (generator_fn dws posLists tile_k focal ignoreFirst ()).length =
      (generator_tuples dws posLists ignoreFirst).length *
        (get_patch_metadata
          ((generator_tuples dws posLists ignoreFirst).headD default).1.width
          ((generator_tuples dws posLists ignoreFirst).headD default).1.height
          tile_k).2 := by
  have hchar : generator_fn dws posLists tile_k focal ignoreFirst () =
      (generator_tuples dws posLists ignoreFirst).flatMap (fun t =>
        (List.range ((get_patch_metadata
            ((generator_tuples dws posLists ignoreFirst).headD default).1.width
            ((generator_tuples dws posLists ignoreFirst).headD default).1.height
            tile_k).2)).map (fun patch_index =>
          (t.1.readPred t.2.2 t.2.1 tile_k patch_index,
           focal t.1 t.2.2 patch_index - t.1.zUm * (t.2.1 : ℚ)))) := by
    unfold generator_fn inner_generator
    dsimp only
    exact flatMap_range_getElem (generator_tuples dws posLists ignoreFirst)
      (fun t =>
        (List.range ((get_patch_metadata
            ((generator_tuples dws posLists ignoreFirst).headD default).1.width
            ((generator_tuples dws posLists ignoreFirst).headD default).1.height
            tile_k).2)).map (fun patch_index =>
          (t.1.readPred t.2.2 t.2.1 tile_k patch_index,
           focal t.1 t.2.2 patch_index - t.1.zUm * (t.2.1 : ℚ))))
  refine ⟨rfl, hchar, ?_⟩
  rw [hchar]
  apply length_flatMap_const
  intro t ht
  rw [List.length_map, List.length_range]

/-- First dataset for the generator evaluations: 2 z slices. -/
def dwGenA : DataWrapper where
  width := 4
  height := 4
  numPositions := 1
  numZ := fun _ => 2
  zUm := 1
  readGT := fun _ _ _ _ => 0
  readPred := fun _ _ _ _ _ _ => 1

/-- Second dataset for the generator evaluations: 3 z slices. -/
def dwGenB : DataWrapper where
  width := 4
  height := 4
  numPositions := 1
  numZ := fun _ => 3
  zUm := 1
  readGT := fun _ _ _ _ => 0
  readPred := fun _ _ _ _ _ _ => 2

/-- Witness for c9_generator_restartable on the single dataset dwGenB with
split 1 (patches_per_image = 1): the sequence has length 3. -/
theorem c9_generator_restartable_witness :
    generator_fn [dwGenB] [[0]] 1 (fun _ _ _ => 0) false () =
      generator_fn [dwGenB] [[0]] 1 (fun _ _ _ => 0) false () ∧
    generator_fn [dwGenB] [[0]] 1 (fun _ _ _ => 0) false () =
      (generator_tuples [dwGenB] [[0]] false).flatMap (fun t =>
        (List.range ((get_patch_metadata
            ((generator_tuples [dwGenB] [[0]] false).headD default).1.width
            ((generator_tuples [dwGenB] [[0]] false).headD default).1.height
            1).2)).map (fun patch_index =>
          (t.1.readPred t.2.2 t.2.1 1 patch_index,
           (fun _ _ _ => (0 : ℚ)) t.1 t.2.2 patch_index -
             t.1.zUm * (t.2.1 : ℚ)))) ∧
    (generator_fn [dwGenB] [[0]] 1 (fun _ _ _ => 0) false ()).length =
      (generator_tuples [dwGenB] [[0]] false).length *
        (get_patch_metadata
          ((generator_tuples [dwGenB] [[0]] false).headD default).1.width
          ((generator_tuples [dwGenB] [[0]] false).headD default).1.height
          1).2 :=
  c9_generator_restartable [dwGenB] [[0]] 1 (fun _ _ _ => 0) false
    (by decide) (by decide)

/-- C2: with two datasets supplied, the source enumerates only the LAST
dataset: the accumulator list is re-initialised inside the loop over
datasets, so the tuples of dwGenA (2 slices) are discarded and only the 3
tuples of dwGenB remain; the generator yields 3 pairs, not the
2 + 3 = 5 pairs the claim requires (patches_per_image = 1 here).  The
per-dataset tuple enumeration and the per-slice pair count are correct for
the last (equivalently, a single) dataset. -/
theorem c2_generator_last_dataset_only :
    generator_tuples [dwGenA, dwGenB] [[0], [0]] false =
      [(dwGenB, 0, 0), (dwGenB, 1, 0), (dwGenB, 2, 0)] ∧
    (generator_tuples [dwGenA, dwGenB] [[0], [0]] false).length = 3 ∧
    (generator_fn [dwGenA, dwGenB] [[0], [0]] 1 (fun _ _ _ => 0) false
      ()).length = 3 ∧
    dwGenA.numZ 0 * (get_patch_metadata dwGenA.width dwGenA.height 1).2 +
      dwGenB.numZ 0 * (get_patch_metadata dwGenB.width dwGenB.height 1).2 =
      5 := by
  refine ⟨?_, ?_, ?_, by decide⟩
  · rfl
  · rfl
  · rfl

/-!
### Design-matrix cache (afutil.read_or_calc_design_mat)

The cache key is str(deterministic_params); the two arrays are stored under
"features_" ++ key and "defocus_dists_" ++ key.  The external feature
extractor (DefocusNetwork.evaluate_deterministic_graph over the training
pair generator of the single dataset, built with ignore_first_slice=True)
is modelled as the uninterpreted deterministic thunk extract; the persisted
array store as a function from names to optional arrays, of an arbitrary
array type.  After reading both names the source tests only
"features is None" before deciding to recompute; the returned defocus array
is whatever was stored (possibly nothing) whenever features is present.
The third component counts extractor invocations. -/

/-- Store an array under a name, overwriting. -/
def setArr {A : Type} (st : String → Option A) (key : String) (v : A) :
    String → Option A :=
  fun s => if s = key then some v else st s

def read_or_calc_design_mat {A : Type} (store : String → Option A)
    (paramId : String) (extract : Unit → A × A) :
    (A × Option A) × (String → Option A) × Nat :=
  let feature_name := "features_" ++ paramId
  let defocus_name := "defocus_dists_" ++ paramId
  let features := store feature_name
  let defocus_dists := store defocus_name
  match features with
  | none =>
      let fd := extract ()
      ((fd.1, some fd.2),
        (setArr (setArr store feature_name fd.1) defocus_name fd.2, 1))
  | some f => ((f, defocus_dists), (store, 0))

theorem feature_defocus_key_ne (p : String) :
    ("features_" ++ p) ≠ ("defocus_dists_" ++ p) := by
  intro h
  have h2 := congrArg String.data h
  rw [String.data_append, String.data_append] at h2
  have h3 := congrArg (fun l => l.headD ' ') h2
  simp at h3

/-- C3: the claim says a missing defocus_dists_<key> array alone triggers
the extractor and repersistence.  It does not: the source tests only
features_<key>.  In the state that stores features_p = [[1]] and nothing
else, the defocus array is missing, yet the call makes zero extractor
invocations, persists nothing, and returns the stored features with no
defocus array. -/
theorem c3_cache_check_counterexample :
    (fun s : String =>
      if s = "features_p" then some ([[1]] : List (List ℚ)) else none)
      "defocus_dists_p" = none ∧
    (read_or_calc_design_mat
      (fun s : String =>
        if s = "features_p" then some ([[1]] : List (List ℚ)) else none)
      "p" (fun _ => ([[9]], [[8]]))).2.2 = 0 ∧
    (read_or_calc_design_mat
      (fun s : String =>
        if s = "features_p" then some ([[1]] : List (List ℚ)) else none)
      "p" (fun _ => ([[9]], [[8]]))).2.1 "defocus_dists_p" = none ∧
    (read_or_calc_design_mat
      (fun s : String =>
        if s = "features_p" then some ([[1]] : List (List ℚ)) else none)
      "p" (fun _ => ([[9]], [[8]]))).1 = ([[1]], none) := by
  refine ⟨by decide, ?_, ?_, ?_⟩ <;> rfl

/-- C3 (amended): the extractor runs exactly when features_<key> is absent
(regardless of defocus_dists_<key>), and then both arrays are persisted;
when features_<key> is present the stored pair is returned untouched with
no invocation.  Consequently two successive calls with identical parameters
from any starting state invoke the extractor at most once in total and
return equal pairs. -/
theorem c3_cache_amended {A : Type} (store : String → Option A)
    (paramId : String) (extract : Unit → A × A) :
    ((read_or_calc_design_mat store paramId extract).2.2 = 1 ↔
      store ("features_" ++ paramId) = none) ∧
    (read_or_calc_design_mat store paramId extract).2.2 +
      (read_or_calc_design_mat
        (read_or_calc_design_mat store paramId extract).2.1 paramId
        extract).2.2 ≤ 1 ∧
    (read_or_calc_design_mat
      (read_or_calc_design_mat store paramId extract).2.1 paramId
      extract).1 = (read_or_calc_design_mat store paramId extract).1 := by
  cases hf : store ("features_" ++ paramId) with
  | some f =>
    have h1 : read_or_calc_design_mat store paramId extract =
        ((f, store ("defocus_dists_" ++ paramId)), (store, 0)) := by
      simp only [read_or_calc_design_mat, hf]
    have hproj : (read_or_calc_design_mat store paramId extract).2.1 =
        store := by rw [h1]
    have hcnt1 : (read_or_calc_design_mat store paramId extract).2.2 = 0 := by
      rw [h1]
    refine ⟨?_, ?_, ?_⟩
    · rw [hcnt1]
      simp
    · rw [hproj, hcnt1]
      simp
    · rw [hproj]
  | none =>
    have h1 : read_or_calc_design_mat store paramId extract =
        (((extract ()).1, some (extract ()).2),
          (setArr (setArr store ("features_" ++ paramId) (extract ()).1)
            ("defocus_dists_" ++ paramId) (extract ()).2, 1)) := by
      simp only [read_or_calc_design_mat, hf]
    have hread : (setArr (setArr store ("features_" ++ paramId) (extract ()).1)
        ("defocus_dists_" ++ paramId) (extract ()).2)
        ("features_" ++ paramId) = some (extract ()).1 := by
      simp [setArr, feature_defocus_key_ne paramId]
    have hread2 : (setArr (setArr store ("features_" ++ paramId)
        (extract ()).1) ("defocus_dists_" ++ paramId) (extract ()).2)
        ("defocus_dists_" ++ paramId) = some (extract ()).2 := by
      simp [setArr]
    have hproj : (read_or_calc_design_mat store paramId extract).2.1 =
        setArr (setArr store ("features_" ++ paramId) (extract ()).1)
          ("defocus_dists_" ++ paramId) (extract ()).2 := by rw [h1]
    have hcnt1 : (read_or_calc_design_mat store paramId extract).2.2 = 1 := by
      rw [h1]
    have hres1 : (read_or_calc_design_mat store paramId extract).1 =
        ((extract ()).1, some (extract ()).2) := by rw [h1]
    have h2 : read_or_calc_design_mat
        (setArr (setArr store ("features_" ++ paramId) (extract ()).1)
          ("defocus_dists_" ++ paramId) (extract ()).2) paramId extract =
        (((extract ()).1, some (extract ()).2),
          (setArr (setArr store ("features_" ++ paramId) (extract ()).1)
            ("defocus_dists_" ++ paramId) (extract ()).2, 0)) := by
      simp only [read_or_calc_design_mat, hread, hread2]
    refine ⟨?_, ?_, ?_⟩
    · rw [hcnt1]
      simp
    · rw [hproj, hcnt1, h2]
      simp
    · rw [hproj, h2, hres1]
